import Mathlib

/-
  Verification of the PCCOE Datathon submission portal backend
  (src/backend/index.js) against its natural-language specification.

  Shallow embedding conventions:
  * JavaScript numbers occurring in the scoring pipeline are integers or NaN;
    we model them as `JNum := Option Int` with `none` standing for NaN (and
    for `undefined` under strict comparison with a number, which behaves the
    same everywhere the code compares values).
  * Exact rational arithmetic (`ℚ`) models the floating-point divisions; all
    quotients appearing in the claims are exactly representable.
  * CSV rows (the output of `csv-parser`) are association lists from column
    name to cell string; a JS object field read that can yield `undefined`
    is an `Option String`.
  * Fallible request handling is `Except UploadError`.
  * Dates/timestamps are abstract `Nat` instants; `today ≤ r.date` models the
    Mongo query `date: { $gte: today }`.
-/

/-- A JavaScript number that is either an integer or NaN (`none`).  `none`
also stands for `undefined` read out of range: both compare strictly-unequal
to every integer, which is the only way the scoring code inspects them. -/
abbrev JNum := Option Int

/-- Strict JS equality `a === b` restricted to the values the metric code
compares: NaN (and `undefined`) is equal to nothing, including itself. -/
def jeq : JNum → JNum → Bool
  | some x, some y => x == y
  | _, _ => false

/-- Indexing `arr[i]` for a JS array of numbers: out-of-range reads give `undefined`,
which we collapse into `none` (it behaves like NaN in every comparison the
metric functions perform). -/
def jGet (l : List JNum) (i : Nat) : JNum := (l[i]?).join

/-- The counting loop of `F1Score` (src/backend/index.js lines 144-152):
walks `actual` by index, reading `predicted[i]`, and bumps
(truePositives, falsePositives, falseNegatives) through the else-if chain. -/
def f1CountsAux : List JNum → List JNum → Nat × Nat × Nat → Nat × Nat × Nat
  | [], _, acc => acc
  | a :: as, ps, (tp, fp, fn) =>
    let p : JNum := (ps.head?).join
    let acc2 : Nat × Nat × Nat :=
      if a = some 1 ∧ p = some 1 then (tp + 1, fp, fn)
      else if p = some 1 ∧ a = some 0 then (tp, fp + 1, fn)
      else if a = some 1 ∧ p = some 0 then (tp, fp, fn + 1)
      else (tp, fp, fn)
    f1CountsAux as ps.tail acc2

/-- The triple (truePositives, falsePositives, falseNegatives) computed by the source's
loop, starting from zero counters. -/
def f1Counts (actual predicted : List JNum) : Nat × Nat × Nat :=
  f1CountsAux actual predicted (0, 0, 0)

/-- Source `F1Score` (src/backend/index.js lines 139-158).  The JS idiom
`tp / (tp + fp) || 0` turns the NaN arising from a zero denominator into 0
and leaves every other value unchanged (a genuine 0 quotient is already 0),
so it is exactly `if tp + fp = 0 then 0 else tp / (tp + fp)` over ℚ. -/
def F1Score (actual predicted : List JNum) : ℚ :=
  let c := f1Counts actual predicted
  let tp := c.1
  let fp := c.2.1
  let fn := c.2.2
  let prec : ℚ := if tp + fp = 0 then 0 else (tp : ℚ) / ((tp : ℚ) + (fp : ℚ))
  let recl : ℚ := if tp + fn = 0 then 0 else (tp : ℚ) / ((tp : ℚ) + (fn : ℚ))
  if prec = 0 ∨ recl = 0 then 0
  else 2 * (prec * recl) / (prec + recl)

/-- The matching-position counter of `Accuracy` (src/backend/index.js lines
162-167): loops over `actual` by index comparing `actual[i] === predicted[i]`. -/
def countMatches : List JNum → List JNum → Nat
  | [], _ => 0
  | a :: as, ps => (if jeq a ((ps.head?).join) then 1 else 0) + countMatches as ps.tail

/-- Source `Accuracy` (src/backend/index.js lines 161-169).  `correct / actual.length`
is NaN (`none`) exactly when `actual.length = 0` (the 0/0 case); otherwise it
is the exact rational `correct / length`. -/
def Accuracy (actual predicted : List JNum) : Option ℚ :=
  if actual.length = 0 then none
  else some ((countMatches actual predicted : ℚ) / (actual.length : ℚ))

/-- Spec-side true-positive count (spec §4.1): positions where actual=1 and
predicted=1, over the positionwise pairing of the two sequences. -/
def tpSpec (a p : List JNum) : Nat :=
  (a.zip p).countP (fun x => decide (x.1 = some 1 ∧ x.2 = some 1))

/-- Spec-side false-positive count: positions where actual=0 and predicted=1. -/
def fpSpec (a p : List JNum) : Nat :=
  (a.zip p).countP (fun x => decide (x.1 = some 0 ∧ x.2 = some 1))

/-- Spec-side false-negative count: positions where actual=1 and predicted=0. -/
def fnSpec (a p : List JNum) : Nat :=
  (a.zip p).countP (fun x => decide (x.1 = some 1 ∧ x.2 = some 0))

/-- Modelled from the spec (§4.1), for comparison with `F1Score`: precision =
tp/(tp+fp) and recall = tp/(tp+fn), each 0 when the denominator is 0; result 0
when precision or recall is 0, else 2·precision·recall/(precision+recall). -/
def f1Ref (a p : List JNum) : ℚ :=
  let tp := tpSpec a p
  let fp := fpSpec a p
  let fn := fnSpec a p
  let prec : ℚ := if tp + fp = 0 then 0 else (tp : ℚ) / ((tp : ℚ) + (fp : ℚ))
  let recl : ℚ := if tp + fn = 0 then 0 else (tp : ℚ) / ((tp : ℚ) + (fn : ℚ))
  if prec = 0 ∨ recl = 0 then 0
  else 2 * (prec * recl) / (prec + recl)

/-- Modelled from the spec (claim C9): complement flips every 0 to 1 and every
1 to 0 (other values, which a binary sequence does not contain, are kept). -/
def jcomplement (l : List JNum) : List JNum :=
  l.map (fun x => if x = some 0 then some 1 else if x = some 1 then some 0 else x)

/-- A parsed CSV row as produced by `csv-parser`: column name → cell string. -/
abbrev Row := List (String × String)

/-- Field read `row[key]` on a parsed CSV row: `none` models JS `undefined`. -/
def getCol (r : Row) (k : String) : Option String :=
  (r.find? (fun p => p.1 == k)).map (fun p => p.2)

/-- ASCII lower-casing of one character, as JS `toLowerCase()` acts on the
ASCII column headers the portal compares. -/
def lowerChar (c : Char) : Char :=
  if 65 ≤ c.toNat ∧ c.toNat ≤ 90 then Char.ofNat (c.toNat + 32) else c

/-- JS `s.toLowerCase()` for the ASCII header names compared by the workflow. -/
def jsLower (s : String) : String := String.mk (s.data.map lowerChar)

/-- JS whitespace characters stripped by `parseInt` (ASCII portion, which is
all the uploaded CSV cells can contain). -/
def isJsSpace (c : Char) : Bool :=
  c == ' ' || c == '\t' || c == '\n' || c == '\r' || c.toNat == 11 || c.toNat == 12

/-- Value of a non-empty string of decimal digit characters. -/
def digitsVal (ds : List Char) : Nat :=
  ds.foldl (fun a c => 10 * a + (c.toNat - 48)) 0

/-- JavaScript `parseInt(s, 10)`: skip leading whitespace, read an optional
sign, then the longest leading run of decimal digits; NaN (`none`) when that
run is empty, otherwise the signed value of the run (trailing characters are
ignored). -/
def jsParseInt (s : String) : Option Int :=
  let cs := s.data.dropWhile isJsSpace
  let signed : Int × List Char :=
    match cs with
    | '-' :: t => (-1, t)
    | '+' :: t => (1, t)
    | _ => (1, cs)
  let ds := signed.2.takeWhile (fun c => c.isDigit)
  if ds.isEmpty then none else some (signed.1 * (digitsVal ds : Int))

/-- JS `parseInt(x, 10)` where `x` may be `undefined` (a missing cell):
`parseInt(undefined, 10)` is NaN. -/
def jsParseIntOpt : Option String → Option Int
  | none => none
  | some s => jsParseInt s

/-- A label cell passes the upload validation (`!isNaN(v) && [0,1].includes(v)`
after `parseInt`) exactly when this is `true`. -/
def validCell (c : Option String) : Bool :=
  match jsParseIntOpt c with
  | some v => v == 0 || v == 1
  | none => false

/-- The parsed label of a row (defined when `validCell` holds). -/
def labelOf (fk : String) (r : Row) : Int :=
  (jsParseIntOpt (getCol r fk)).getD 0

/-- Errors surfaced by the upload workflow (422/429/500 responses of
`app.post('/upload')` in src/backend/index.js). -/
inductive UploadError where
  /-- Status 429: daily upload limit exceeded; carries the end-of-day reset instant. -/
  | quotaExceeded (nextReset : Nat)
  /-- Status 422: empty CSV file. -/
  | emptyFile
  /-- Status 422: missing required column. -/
  | missingColumn
  /-- Status 422: invalid value at a 1-based row index, with the raw cell content. -/
  | invalidValue (row : Nat) (raw : Option String)
  /-- Status 500: thrown TypeError (e.g. reference dataset empty). -/
  | serverError
  /-- Status 500: server configuration error (no fraud column in reference data). -/
  | serverConfig
  /-- Status 422: missing prediction for a reference transaction id. -/
  | missingPrediction (tid : Option String)
  /-- Status 422: row count mismatch, got vs expected prediction counts. -/
  | rowCountMismatch (got expected : Nat)
deriving DecidableEq

/-- The per-row processing loop (src/backend/index.js lines 479-500), indexed
from `idx` (0-based): validates each label cell via `parseInt`, and either
pushes the prediction (no transaction-id column) or records a
(transactionId, prediction) pair for the prediction map. -/
def collectPreds (fraudColKey : String) (tidKey : Option String) (idx : Nat) :
    List Row → Except UploadError (List Int × List (Option String × Int))
  | [] => .ok ([], [])
  | row :: rest =>
    let predVal := getCol row fraudColKey
    match jsParseIntOpt predVal with
    | none => .error (.invalidValue (idx + 1) predVal)
    | some v =>
      if v = 0 ∨ v = 1 then
        match collectPreds fraudColKey tidKey (idx + 1) rest with
        | .error e => .error e
        | .ok (ps, pairs) =>
          match tidKey with
          | some tk => .ok (ps, (getCol row tk, v) :: pairs)
          | none => .ok (v :: ps, pairs)
      else .error (.invalidValue (idx + 1) predVal)

/-- The JS object `predictionMap`: later assignments overwrite earlier ones. -/
def buildMap (pairs : List (Option String × Int)) : Option String → Option Int :=
  pairs.foldl (fun m p => fun k => if k = p.1 then some p.2 else m k) (fun _ => none)

/-- The transaction-id alignment loop (src/backend/index.js lines 523-532):
walk the reference set in order, failing with MissingPrediction on the first
reference id absent from the prediction map (`hasOwnProperty` check). -/
def alignLoop (predMap : Option String → Option Int) (itc : String) :
    List Row → Except UploadError (List Int)
  | [] => .ok []
  | row :: rest =>
    let tid := getCol row itc
    match predMap tid with
    | none => .error (.missingPrediction tid)
    | some v =>
      match alignLoop predMap itc rest with
      | .error e => .error e
      | .ok vs => .ok (v :: vs)

/-- The CSV normalization + metric computation of `app.post('/upload')`
(src/backend/index.js lines 447-549): empty-file check, label-column lookup
(case-insensitive aliases), per-row validation, optional transaction-id
alignment against the reference set, row-count check, then F1 and accuracy
against the parsed reference labels.  Returns (f1, accuracy). -/
def processUpload (idealDF : List Row) (csvData : List Row) :
    Except UploadError (ℚ × Option ℚ) :=
  match csvData with
  | [] => .error .emptyFile
  | firstRow :: _ =>
    let columnKeys := firstRow.map (fun p => p.1)
    match columnKeys.find? (fun k => jsLower k == "isfraud" || jsLower k == "fraudlabel") with
    | none => .error .missingColumn
    | some fraudColKey =>
      let tidKey := columnKeys.find? (fun k => jsLower k == "transactionid")
      match collectPreds fraudColKey tidKey 0 csvData with
      | .error e => .error e
      | .ok (predictions, pairs) =>
        match idealDF with
        | [] => .error .serverError
        | idealFirst :: _ =>
          let idealKeys := idealFirst.map (fun p => p.1)
          match idealKeys.find? (fun k =>
              jsLower k == "fraudlabel" || jsLower k == "isfraud" || jsLower k == "fraud") with
          | none => .error .serverConfig
          | some idealFraudCol =>
            let idealTidCol := idealKeys.find? (fun k => jsLower k == "transactionid")
            let ordered : Except UploadError (List Int) :=
              match tidKey, idealTidCol with
              | some _, some itc => alignLoop (buildMap pairs) itc idealDF
              | _, _ => .ok predictions
            match ordered with
            | .error e => .error e
            | .ok orderedPredictions =>
              if orderedPredictions.length ≠ idealDF.length then
                .error (.rowCountMismatch orderedPredictions.length idealDF.length)
              else
                let actuals : List JNum :=
                  idealDF.map (fun row => jsParseIntOpt (getCol row idealFraudCol))
                let preds : List JNum := orderedPredictions.map (fun v => some v)
                .ok (F1Score actuals preds, Accuracy actuals preds)

/-- A document of the `UploadCount` collection (the per-owner daily quota
record): userId, count, date. -/
structure QuotaRec where
  userId : String
  count : Nat
  date : Nat
deriving DecidableEq

/-- A document of the `Score` collection. -/
structure ScoreRow where
  userId : String
  f1 : ℚ
  accuracy : Option ℚ
  timestamp : Nat
deriving DecidableEq

/-- The persistent store as seen by the workflow: all Score rows (in insertion
order) and all UploadCount records. -/
structure ServerState where
  scores : List ScoreRow
  quota : List QuotaRec
deriving DecidableEq

/-- The success payload of `POST /upload`. -/
structure UploadResp where
  f1_score : ℚ
  accuracy : Option ℚ
  timestamp : Nat
  uploadsRemaining : Int
deriving DecidableEq

/-- The query `UploadCount.findOne` for this owner dated today or later: the first record for
this owner dated today or later. -/
def findQuota (q : List QuotaRec) (u : String) (today : Nat) : Option QuotaRec :=
  q.find? (fun r => r.userId == u && decide (today ≤ r.date))

/-- Saving the mutated quota document (`userCount.count += 1; save()`):
increments the count of the first record matching the same query. -/
def incQuota : List QuotaRec → String → Nat → List QuotaRec
  | [], _, _ => []
  | r :: rs, u, today =>
    if r.userId == u && decide (today ≤ r.date) then
      { r with count := r.count + 1 } :: rs
    else r :: incQuota rs u today

/-- One sequential execution of the `app.post('/upload')` handler
(src/backend/index.js lines 422-588) after authentication and file receipt:
quota pre-check, CSV processing, Score persistence, quota commit, response.
`maxU` is MAX_DAILY_UPLOADS, `endOfDay` the `moment().endOf('day')` instant
reported on quota exhaustion, `ts` the `new Date()` timestamp of the request.
Returns the HTTP-level outcome together with the post-request store state. -/
def uploadStep (maxU : Nat) (idealDF : List Row) (today endOfDay ts : Nat)
    (st : ServerState) (userId : String) (csvData : List Row) :
    Except UploadError UploadResp × ServerState :=
  match findQuota st.quota userId today with
  | some rec =>
    if maxU ≤ rec.count then (.error (.quotaExceeded endOfDay), st)
    else
      match processUpload idealDF csvData with
      | .error e => (.error e, st)
      | .ok (f1v, accv) =>
        let newCount := rec.count + 1
        (.ok ⟨f1v, accv, ts, (maxU : Int) - ((newCount : Int) + 1)⟩,
         ⟨st.scores ++ [⟨userId, f1v, accv, ts⟩], incQuota st.quota userId today⟩)
  | none =>
    match processUpload idealDF csvData with
    | .error e => (.error e, st)
    | .ok (f1v, accv) =>
      (.ok ⟨f1v, accv, ts, (maxU : Int) - 1⟩,
       ⟨st.scores ++ [⟨userId, f1v, accv, ts⟩], st.quota ++ [⟨userId, 1, today⟩]⟩)

/-- Source `resetDailyCounts` (src/backend/index.js lines 205-212):
`UploadCount.updateMany({}, {$set: {count: 0, date: new Date()}})`. -/
def resetDailyCounts (st : ServerState) (now : Nat) : ServerState :=
  { st with quota := st.quota.map (fun r => { r with count := 0, date := now }) }

/-- An entry of the `GET /leaderboard` response. -/
structure LBEntry where
  user_id : String
  f1_score : ℚ
  accuracy : Option ℚ
  last_submission : Nat
deriving DecidableEq

/-- Timestamp-ascending comparison used by the `$sortArray` stage. -/
def tsLE (a b : ScoreRow) : Prop := a.timestamp ≤ b.timestamp

instance : DecidableRel tsLE := fun a b => Nat.decLe a.timestamp b.timestamp

instance : IsTotal ScoreRow tsLE := ⟨fun a b => Nat.le_total a.timestamp b.timestamp⟩

instance : IsTrans ScoreRow tsLE := ⟨fun _ _ _ => Nat.le_trans⟩

/-- The final `$sort: {f1_score: -1, last_submission: 1}` ordering. -/
def lbRel (a b : LBEntry) : Prop :=
  b.f1_score < a.f1_score ∨ (a.f1_score = b.f1_score ∧ a.last_submission ≤ b.last_submission)

instance : DecidableRel lbRel := fun a b => by unfold lbRel; infer_instance

instance : IsTotal LBEntry lbRel := by
  constructor
  intro a b
  rcases lt_trichotomy a.f1_score b.f1_score with h | h | h
  · exact Or.inr (Or.inl h)
  · rcases Nat.le_total a.last_submission b.last_submission with ht | ht
    · exact Or.inl (Or.inr ⟨h, ht⟩)
    · exact Or.inr (Or.inr ⟨h.symm, ht⟩)
  · exact Or.inl (Or.inl h)

instance : IsTrans LBEntry lbRel := by
  constructor
  intro a b c hab hbc
  rcases hab with hab | ⟨hab, hab2⟩ <;> rcases hbc with hbc | ⟨hbc, hbc2⟩
  · exact Or.inl (lt_trans hbc hab)
  · exact Or.inl (by rw [← hbc]; exact hab)
  · exact Or.inl (by rw [hab]; exact hbc)
  · exact Or.inr ⟨hab.trans hbc, le_trans hab2 hbc2⟩

/-- The entries pushed for one owner by the `$group` stage. -/
def entriesFor (scores : List ScoreRow) (u : String) : List ScoreRow :=
  scores.filter (fun s => s.userId == u)

/-- Stage `$max` over the f1 values of a group. -/
def maxF1 : List ScoreRow → Option ℚ
  | [] => none
  | e :: es => some (es.foldl (fun m s => max m s.f1) e.f1)

/-- The per-owner best entry of the aggregation pipeline
(src/backend/index.js lines 597-624): filter the owner's entries to those with
the maximal f1, sort them by timestamp ascending, take the first. -/
def bestFor (scores : List ScoreRow) (u : String) : Option ScoreRow :=
  match maxF1 (entriesFor scores u) with
  | none => none
  | some m =>
    (List.insertionSort tsLE
      ((entriesFor scores u).filter (fun s => decide (s.f1 = m)))).head?

/-- Accumulate a `$group` key: a userId joins the key list on first sight. -/
def addOwner (acc : List String) (u : String) : List String :=
  if u ∈ acc then acc else acc ++ [u]

/-- The distinct owners appearing in the Score collection (the `$group` keys),
in order of first appearance. -/
def owners (scores : List ScoreRow) : List String :=
  scores.foldl (fun acc s => addOwner acc s.userId) []

/-- Endpoint `GET /leaderboard` (src/backend/index.js lines 591-652): per-owner best
entry, sorted by f1 descending then timestamp ascending, truncated to `limit`
(the HTTP layer defaults `limit` to 5). -/
def leaderboard (scores : List ScoreRow) (limit : Nat) : List LBEntry :=
  let rows := (owners scores).filterMap (fun u =>
    (bestFor scores u).map (fun s => ⟨u, s.f1, s.accuracy, s.timestamp⟩))
  (List.insertionSort lbRel rows).take limit

/-- Concrete one-row reference set used by the concrete-execution theorems. -/
def demoIdeal : List Row := [[("isFraud", "1")]]

/-- Concrete valid one-row submission matching `demoIdeal`. -/
def demoCsv : List Row := [[("isFraud", "1")]]

/-- One upload of `demoCsv` by user "alice" with max 5, day 0, reset at 99. -/
def demoStep (st : ServerState) : Except UploadError UploadResp × ServerState :=
  uploadStep 5 demoIdeal 0 99 0 st "alice" demoCsv

/-- State after `n` consecutive `demoStep` uploads from the empty store. -/
def demoIter : Nat → ServerState
  | 0 => ⟨[], []⟩
  | n + 1 => (demoStep (demoIter n)).2

/-- Whether an `Except` is a success. -/
def isOkE {ε α : Type} : Except ε α → Bool
  | .ok _ => true
  | .error _ => false

/-- The source's counting loop computes exactly the spec's tp/fp/fn counts:
the else-if chain's guards are mutually exclusive, and positions beyond either
sequence contribute nothing on both sides. -/
lemma f1CountsAux_eq (a : List JNum) : ∀ (p : List JNum) (tp fp fn : Nat),
    f1CountsAux a p (tp, fp, fn) = (tp + tpSpec a p, fp + fpSpec a p, fn + fnSpec a p) := by
  induction a with
  | nil =>
    intro p tp fp fn
    simp [f1CountsAux, tpSpec, fpSpec, fnSpec]
  | cons x as ih =>
    intro p tp fp fn
    cases p with
    | nil =>
      have h0 : f1CountsAux (x :: as) [] (tp, fp, fn) = f1CountsAux as [] (tp, fp, fn) := by
        simp [f1CountsAux, Option.join]
      rw [h0, ih]
      simp [tpSpec, fpSpec, fnSpec]
    | cons q qs =>
      by_cases hx1 : x = some 1 <;> by_cases hx0 : x = some 0 <;>
        by_cases hq1 : q = some 1 <;> by_cases hq0 : q = some 0 <;>
        (simp [f1CountsAux, Option.join, tpSpec, fpSpec, fnSpec, List.countP_cons,
           hx1, hx0, hq1, hq0, ih, Prod.ext_iff] <;> omega)

/-- The loop's counters starting from zero are the spec's counts. -/
lemma f1Counts_eq (a p : List JNum) :
    f1Counts a p = (tpSpec a p, fpSpec a p, fnSpec a p) := by
  simpa using f1CountsAux_eq a p 0 0 0

/-- The source `F1Score` coincides with the spec's reference F1 definition. -/
lemma F1Score_eq_f1Ref (a p : List JNum) : F1Score a p = f1Ref a p := by
  simp [F1Score, f1Ref, f1Counts_eq]

/-- With zero true positives, precision is 0 in both denominator cases, so
the source F1 is 0 whatever fp and fn are. -/
lemma F1Score_tp_zero (a p : List JNum) (h : tpSpec a p = 0) : F1Score a p = 0 := by
  simp only [F1Score, f1Counts_eq, h]
  by_cases hfp : fpSpec a p = 0 <;> simp [hfp]

/-- On a binary sequence, every position matches itself, so the match counter
reaches the full length (a NaN entry would not match itself, hence the
binarity hypothesis). -/
lemma countMatches_self (a : List JNum) (h : ∀ x ∈ a, x = some 0 ∨ x = some 1) :
    countMatches a a = a.length := by
  induction a with
  | nil => rfl
  | cons x as ih =>
    have hx : jeq x x = true := by
      rcases h x (by simp) with h0 | h0 <;> simp [h0, jeq]
    simp [countMatches, Option.join, hx, ih (fun y hy => h y (by simp [hy]))]
    omega

/-- On a binary sequence, no position matches its complement. -/
lemma countMatches_compl (a : List JNum) (h : ∀ x ∈ a, x = some 0 ∨ x = some 1) :
    countMatches a (jcomplement a) = 0 := by
  induction a with
  | nil => rfl
  | cons x as ih =>
    have hx : jeq x (if x = some 0 then some 1 else if x = some 1 then some 0 else x) = false := by
      rcases h x (by simp) with h0 | h0 <;> simp [h0, jeq]
    have ih2 := ih (fun y hy => h y (by simp [hy]))
    simp only [jcomplement] at ih2
    simp [countMatches, jcomplement, Option.join, hx, ih2]

/-- Claim C1: for every pair of equal-length binary sequences, the source
`F1Score` equals the spec's reference definition (tp/fp/fn positionwise
counts, precision and recall taken as 0 on a zero denominator, harmonic mean
otherwise); tp = 0 forces F1 = 0 regardless of fp and fn; and the spec's
worked example actual=[1,0,1,1], predicted=[1,0,0,1] scores f1 = 4/5. -/
theorem claim_C1_f1_matches_reference :
    (∀ (a p : List JNum), a.length = p.length →
      (∀ x ∈ a, x = some 0 ∨ x = some 1) →
      (∀ x ∈ p, x = some 0 ∨ x = some 1) →
      F1Score a p = f1Ref a p) ∧
    (∀ (a p : List JNum), tpSpec a p = 0 → F1Score a p = 0) ∧
    F1Score [some 1, some 0, some 1, some 1] [some 1, some 0, some 0, some 1] = 4 / 5 := by
  refine ⟨fun a p _ _ _ => F1Score_eq_f1Ref a p,
    fun a p h => F1Score_tp_zero a p h, ?_⟩
  norm_num [F1Score, f1Counts, f1CountsAux, Option.join]

/-- Concrete instantiation of claim C1's universally quantified part. -/
theorem claim_C1_witness :
    ([some 1, some 0] : List JNum).length = ([some 1, some 1] : List JNum).length ∧
    F1Score [some 1, some 0] [some 1, some 1] = f1Ref [some 1, some 0] [some 1, some 1] :=
  ⟨by decide,
   claim_C1_f1_matches_reference.1 [some 1, some 0] [some 1, some 1]
     (by decide) (by decide) (by decide)⟩

/-- Claim C2 (code evaluated at the failing input): on the empty input the
source `Accuracy` does not raise any error — it completes normally and
returns 0/0, i.e. NaN (modelled `none`), so no numeric value either. -/
theorem claim_C2_empty_accuracy_is_nan :
    Accuracy ([] : List JNum) ([] : List JNum) = none ∧
    ∀ q : ℚ, Accuracy ([] : List JNum) ([] : List JNum) ≠ some q := by
  exact ⟨rfl, fun q h => by simp [Accuracy] at h⟩

/-- Claim C9 as stated is false at the empty sequence (a binary sequence of
length 0): the code yields NaN (`none`), not accuracy 1. -/
theorem claim_C9_counterexample :
    Accuracy ([] : List JNum) ([] : List JNum) ≠ some 1 := by
  simp [Accuracy]

/-- Claim C9 (amended to non-empty sequences): for every non-empty binary
sequence a, accuracy(a, a) = 1 and accuracy(a, complement(a)) = 0. -/
theorem claim_C9_amended :
    ∀ (a : List JNum), a ≠ [] → (∀ x ∈ a, x = some 0 ∨ x = some 1) →
      Accuracy a a = some 1 ∧ Accuracy a (jcomplement a) = some 0 := by
  intro a hne hbin
  have hlen : a.length ≠ 0 := fun h => hne (List.length_eq_zero.mp h)
  have hlenq : (a.length : ℚ) ≠ 0 := Nat.cast_ne_zero.mpr hlen
  constructor
  · simp [Accuracy, hlen, countMatches_self a hbin, div_self hlenq]
  · simp [Accuracy, hlen, countMatches_compl a hbin]

/-- Concrete instantiation of amended claim C9. -/
theorem claim_C9_witness :
    Accuracy [some 1] [some 1] = some 1 ∧
    Accuracy [some 1] (jcomplement [some 1]) = some 0 :=
  claim_C9_amended [some 1] (by decide) (by decide)

/-- Exhaustive description of one upload request: it either fails leaving the
store untouched, commits against an existing same-day quota record (strictly
under the limit), or commits creating a fresh record with count 1. -/
lemma uploadStep_shape (maxU : Nat) (idealDF : List Row) (today endOfDay ts : Nat)
    (st : ServerState) (u : String) (csv : List Row) :
    (∃ e, uploadStep maxU idealDF today endOfDay ts st u csv = (.error e, st)) ∨
    (∃ f1v accv rec, findQuota st.quota u today = some rec ∧ rec.count < maxU ∧
      processUpload idealDF csv = .ok (f1v, accv) ∧
      uploadStep maxU idealDF today endOfDay ts st u csv =
        (.ok ⟨f1v, accv, ts, (maxU : Int) - ((rec.count + 1 : Nat) + 1)⟩,
         ⟨st.scores ++ [⟨u, f1v, accv, ts⟩], incQuota st.quota u today⟩)) ∨
    (∃ f1v accv, findQuota st.quota u today = none ∧
      processUpload idealDF csv = .ok (f1v, accv) ∧
      uploadStep maxU idealDF today endOfDay ts st u csv =
        (.ok ⟨f1v, accv, ts, (maxU : Int) - 1⟩,
         ⟨st.scores ++ [⟨u, f1v, accv, ts⟩], st.quota ++ [⟨u, 1, today⟩]⟩)) := by
  unfold uploadStep
  cases hfq : findQuota st.quota u today with
  | some rec =>
    by_cases hcnt : maxU ≤ rec.count
    · exact Or.inl ⟨.quotaExceeded endOfDay, by simp [hcnt]⟩
    · cases hpu : processUpload idealDF csv with
      | error e => exact Or.inl ⟨e, by simp [hcnt, hpu]⟩
      | ok pr =>
        obtain ⟨f1v, accv⟩ := pr
        exact Or.inr (Or.inl ⟨f1v, accv, rec, rfl, Nat.lt_of_not_le hcnt, rfl,
          by simp [hcnt, hpu]⟩)
  | none =>
    cases hpu : processUpload idealDF csv with
    | error e => exact Or.inl ⟨e, by simp [hpu]⟩
    | ok pr =>
      obtain ⟨f1v, accv⟩ := pr
      exact Or.inr (Or.inr ⟨f1v, accv, rfl, rfl, by simp [hpu]⟩)

/-- Every record in the committed quota list is either an untouched old record
or the bump-by-one of the record found by the same-day lookup. -/
lemma incQuota_mem (u : String) (today : Nat) :
    ∀ (q : List QuotaRec), ∀ r ∈ incQuota q u today,
      r ∈ q ∨ ∃ r0, findQuota q u today = some r0 ∧ r = { r0 with count := r0.count + 1 } := by
  intro q
  induction q with
  | nil => simp [incQuota]
  | cons hd tl ih =>
    intro r hr
    by_cases hc : (hd.userId == u && decide (today ≤ hd.date)) = true
    · rw [incQuota, if_pos hc] at hr
      rcases List.mem_cons.mp hr with hr | hr
      · refine Or.inr ⟨hd, ?_, hr⟩
        unfold findQuota
        exact @List.find?_cons_of_pos QuotaRec
          (fun r => r.userId == u && decide (today ≤ r.date)) hd tl hc
      · exact Or.inl (List.mem_cons_of_mem _ hr)
    · rw [incQuota, if_neg hc] at hr
      rcases List.mem_cons.mp hr with hr | hr
      · exact Or.inl (hr ▸ List.mem_cons_self _ _)
      · rcases ih r hr with hin | ⟨r0, hf, heq⟩
        · exact Or.inl (List.mem_cons_of_mem _ hin)
        · refine Or.inr ⟨r0, ?_, heq⟩
          have hrw : findQuota (hd :: tl) u today = findQuota tl u today := by
            unfold findQuota
            exact @List.find?_cons_of_neg QuotaRec
              (fun r => r.userId == u && decide (today ≤ r.date)) hd tl hc
          rw [hrw]
          exact hf

/-- Claim C6: whenever an upload request fails — quota pre-check, CSV
validation, alignment, or row-count check — the request leaves the store
exactly as it was: no Score row is persisted and no quota count changes. -/
theorem claim_C6_no_partial_persistence :
    ∀ (maxU : Nat) (idealDF : List Row) (today endOfDay ts : Nat)
      (st : ServerState) (u : String) (csv : List Row) (e : UploadError),
      (uploadStep maxU idealDF today endOfDay ts st u csv).1 = .error e →
      ((uploadStep maxU idealDF today endOfDay ts st u csv).2.scores = st.scores ∧
       (uploadStep maxU idealDF today endOfDay ts st u csv).2.quota = st.quota) := by
  intro maxU idealDF today endOfDay ts st u csv e herr
  rcases uploadStep_shape maxU idealDF today endOfDay ts st u csv with
    ⟨e2, heq⟩ | ⟨f1v, accv, rec, _, _, _, heq⟩ | ⟨f1v, accv, _, _, heq⟩
  · rw [heq]; exact ⟨rfl, rfl⟩
  · rw [heq] at herr; simp at herr
  · rw [heq] at herr; simp at herr

/-- Concrete instantiation of claim C6: an upload of an empty CSV fails and
leaves the store unchanged. -/
theorem claim_C6_witness :
    (uploadStep 5 demoIdeal 0 99 0 ⟨[], []⟩ "alice" []).2.scores = [] ∧
    (uploadStep 5 demoIdeal 0 99 0 ⟨[], []⟩ "alice" []).2.quota = [] :=
  claim_C6_no_partial_persistence 5 demoIdeal 0 99 0 ⟨[], []⟩ "alice" [] .emptyFile rfl

/-- Claim C5: with the owner's same-day count at the maximum, the next upload
fails with QuotaExceeded carrying the end-of-day reset instant and changes
nothing; counts never exceed the maximum (for a positive maximum) under
sequential execution; the reset task zeroes every record and refreshes its
date; and concretely with max 5, five uploads succeed, the sixth is rejected,
and after the reset an upload succeeds again. -/
theorem claim_C5_quota_lifecycle :
    (∀ (maxU : Nat) (idealDF : List Row) (today endOfDay ts : Nat)
       (st : ServerState) (u : String) (csv : List Row) (rec : QuotaRec),
       findQuota st.quota u today = some rec → rec.count = maxU →
       uploadStep maxU idealDF today endOfDay ts st u csv =
         (.error (.quotaExceeded endOfDay), st)) ∧
    (∀ (maxU : Nat) (idealDF : List Row) (today endOfDay ts : Nat)
       (st : ServerState) (u : String) (csv : List Row),
       1 ≤ maxU → (∀ r ∈ st.quota, r.count ≤ maxU) →
       ∀ r ∈ (uploadStep maxU idealDF today endOfDay ts st u csv).2.quota,
         r.count ≤ maxU) ∧
    (∀ (st : ServerState) (now : Nat),
       ∀ r ∈ (resetDailyCounts st now).quota, r.count = 0 ∧ r.date = now) ∧
    ((∀ k, k < 5 → isOkE (demoStep (demoIter k)).1 = true) ∧
     (demoIter 5).quota = [⟨"alice", 5, 0⟩] ∧
     (demoStep (demoIter 5)).1 = .error (.quotaExceeded 99) ∧
     (demoStep (demoIter 5)).2 = demoIter 5 ∧
     (resetDailyCounts (demoIter 5) 1).quota = [⟨"alice", 0, 1⟩] ∧
     isOkE (uploadStep 5 demoIdeal 1 199 10
       (resetDailyCounts (demoIter 5) 1) "alice" demoCsv).1 = true) := by
  refine ⟨?_, ?_, ?_, ?_⟩
  · intro maxU idealDF today endOfDay ts st u csv rec hfq hcnt
    unfold uploadStep
    rw [hfq]
    simp [hcnt]
  · intro maxU idealDF today endOfDay ts st u csv hmax hall r hr
    rcases uploadStep_shape maxU idealDF today endOfDay ts st u csv with
      ⟨e, heq⟩ | ⟨f1v, accv, rec, hfq, hlt, hpu, heq⟩ | ⟨f1v, accv, hfq, hpu, heq⟩
    · rw [heq] at hr
      exact hall r hr
    · rw [heq] at hr
      rcases incQuota_mem u today st.quota r hr with hin | ⟨r0, hf0, heq0⟩
      · exact hall r hin
      · have hr0 : r0 = rec := by
          rw [hfq] at hf0
          exact (Option.some.inj hf0).symm
        rw [heq0, hr0]
        exact hlt
    · rw [heq] at hr
      rcases List.mem_append.mp hr with hin | hnew
      · exact hall r hin
      · simp at hnew
        rw [hnew]
        exact hmax
  · intro st now r hr
    simp only [resetDailyCounts, List.mem_map] at hr
    obtain ⟨a, -, rfl⟩ := hr
    exact ⟨rfl, rfl⟩
  · exact ⟨by decide, by decide, rfl, rfl, by decide, by decide⟩

/-- Concrete instantiation of claim C5's rejection clause: a user at count 5
of max 5 is rejected with the reset instant and an unchanged store. -/
theorem claim_C5_witness :
    uploadStep 5 demoIdeal 0 99 0 ⟨[], [⟨"bob", 5, 0⟩]⟩ "bob" demoCsv =
      (.error (.quotaExceeded 99), ⟨[], [⟨"bob", 5, 0⟩]⟩) :=
  claim_C5_quota_lifecycle.1 5 demoIdeal 0 99 0 ⟨[], [⟨"bob", 5, 0⟩]⟩ "bob" demoCsv
    ⟨"bob", 5, 0⟩ (by decide) rfl

/-- Claim C3 (code evaluated at the failing input): with max 5 and an existing
same-day record at count 1, a successful upload commits the count to 2 but
responds uploadsRemaining = 2, whereas max minus the count after commit is
5 - 2 = 3.  (The handler re-adds 1 to a count it has already incremented; the
no-existing-record branch returns max - 1 as the claim states.) -/
theorem claim_C3_uploads_remaining_bug :
    uploadStep 5 demoIdeal 0 99 7 ⟨[], [⟨"alice", 1, 0⟩]⟩ "alice" demoCsv =
      (.ok ⟨1, some 1, 7, 2⟩,
       ⟨[⟨"alice", 1, some 1, 7⟩], [⟨"alice", 2, 0⟩]⟩) ∧
    (5 : Int) - 2 ≠ 2 := by
  constructor
  · have h1 : F1Score [some 1] [some 1] = 1 := by
      norm_num [F1Score, f1Counts, f1CountsAux, Option.join]
    have h2 : Accuracy [some 1] [some 1] = some 1 := by
      norm_num [Accuracy, countMatches, jeq, Option.join]
    rw [← h2, ← h1]
    exact rfl
  · decide

/-- Claim C4 (code evaluated at the failing input): a valid submission whose
row count equals the reference-set length but which carries a TransactionID
column while the reference set has none is rejected with RowCountMismatch
(reporting 0 received predictions), instead of being scored in row order. -/
theorem claim_C4_tid_only_submission_rejected :
    processUpload demoIdeal [[("TransactionID", "t1"), ("isFraud", "1")]] =
      .error (.rowCountMismatch 0 1) ∧
    ([[("TransactionID", "t1"), ("isFraud", "1")]] : List Row).length =
      demoIdeal.length := ⟨rfl, rfl⟩

/-- The per-row loop reports the first invalid label cell with its 1-based row
index and raw content, whatever valid rows precede it. -/
lemma collectPreds_first_invalid (fk : String) (tk : Option String) :
    ∀ (good : List Row) (idx : Nat) (bad : Row) (rest : List Row),
      (∀ r ∈ good, validCell (getCol r fk) = true) →
      validCell (getCol bad fk) = false →
      collectPreds fk tk idx (good ++ bad :: rest) =
        .error (.invalidValue (idx + good.length + 1) (getCol bad fk)) := by
  intro good
  induction good with
  | nil =>
    intro idx bad rest _ hbad
    cases hv : jsParseIntOpt (getCol bad fk) with
    | none => simp [collectPreds, hv]
    | some v =>
      have hne : ¬(v = 0 ∨ v = 1) := by
        simp [validCell, hv] at hbad
        tauto
      simp [collectPreds, hv, hne]
  | cons g gs ih =>
    intro idx bad rest hgood hbad
    have hg := hgood g (List.mem_cons_self _ _)
    cases hv : jsParseIntOpt (getCol g fk) with
    | none => simp [validCell, hv] at hg
    | some v =>
      have hv01 : v = 0 ∨ v = 1 := by
        simp [validCell, hv] at hg
        tauto
      have hrec := ih (idx + 1) bad rest
        (fun r hr => hgood r (List.mem_cons_of_mem _ hr)) hbad
      have harith : idx + 1 + gs.length + 1 = idx + (g :: gs).length + 1 := by
        simp only [List.length_cons]
        omega
      rw [List.cons_append]
      simp only [collectPreds, hv, if_pos hv01, hrec, harith]

/-- A one-row, one-column submission is accepted by the per-row loop exactly
when `parseInt` of its label cell yields 0 or 1. -/
lemma collectPreds_single_cell (s : String) :
    (∃ out, collectPreds "isFraud" none 0 [[("isFraud", s)]] = .ok out) ↔
      (jsParseInt s = some 0 ∨ jsParseInt s = some 1) := by
  have hcol : getCol [("isFraud", s)] "isFraud" = some s := rfl
  constructor
  · rintro ⟨out, hout⟩
    cases hv : jsParseInt s with
    | none => simp [collectPreds, hcol, jsParseIntOpt, hv] at hout
    | some v =>
      by_cases h01 : v = 0 ∨ v = 1
      · rcases h01 with h | h
        · exact Or.inl (by rw [h])
        · exact Or.inr (by rw [h])
      · exfalso
        simp [collectPreds, hcol, jsParseIntOpt, hv, h01] at hout
  · intro hv
    rcases hv with hv | hv
    · exact ⟨([0], []), by simp [collectPreds, hcol, jsParseIntOpt, hv]⟩
    · exact ⟨([1], []), by simp [collectPreds, hcol, jsParseIntOpt, hv]⟩

/-- Claim C8 as stated is false: the cell "01" is not the literal string "0"
or "1", yet the upload is accepted (parseInt("01", 10) = 1) and scored. -/
theorem claim_C8_counterexample :
    processUpload demoIdeal [[("isFraud", "01")]] = .ok (1, some 1) ∧
    "01" ≠ "0" ∧ "01" ≠ "1" := by
  refine ⟨?_, by decide, by decide⟩
  have h1 : F1Score [some 1] [some 1] = 1 := by
    norm_num [F1Score, f1Counts, f1CountsAux, Option.join]
  have h2 : Accuracy [some 1] [some 1] = some 1 := by
    norm_num [Accuracy, countMatches, jeq, Option.join]
  rw [← h2, ← h1]
  exact rfl

/-- Claim C8 (amended): a label cell is accepted exactly when JavaScript
`parseInt(cell, 10)` yields 0 or 1 — so strings with leading whitespace or
zeros, a sign, or trailing characters (such as "01", " 1", "1.5", "+1") are
also accepted — and otherwise the first offending row fails with InvalidValue
reporting its 1-based index and raw content; in particular "2" and "yes" are
rejected with InvalidValue at row 1. -/
theorem claim_C8_amended :
    (∀ s : String,
      (∃ out, collectPreds "isFraud" none 0 [[("isFraud", s)]] = .ok out) ↔
        (jsParseInt s = some 0 ∨ jsParseInt s = some 1)) ∧
    (∀ (fk : String) (tk : Option String) (good : List Row) (bad : Row) (rest : List Row),
      (∀ r ∈ good, validCell (getCol r fk) = true) →
      validCell (getCol bad fk) = false →
      collectPreds fk tk 0 (good ++ bad :: rest) =
        .error (.invalidValue (good.length + 1) (getCol bad fk))) ∧
    processUpload demoIdeal [[("isFraud", "2")]] = .error (.invalidValue 1 (some "2")) ∧
    processUpload demoIdeal [[("isFraud", "yes")]] =
      .error (.invalidValue 1 (some "yes")) := by
  refine ⟨collectPreds_single_cell, ?_, rfl, rfl⟩
  intro fk tk good bad rest hgood hbad
  have h := collectPreds_first_invalid fk tk good 0 bad rest hgood hbad
  simpa using h

/-- Concrete instantiation of amended claim C8's InvalidValue clause. -/
theorem claim_C8_witness :
    collectPreds "isFraud" none 0 [[("isFraud", "2")]] =
      .error (.invalidValue 1 (some "2")) := by
  have h := claim_C8_amended.2.1 "isFraud" none [] [("isFraud", "2")] []
    (by simp) (by decide)
  have h2 : getCol [("isFraud", "2")] "isFraud" = some "2" := rfl
  simpa [h2] using h

/-- The prediction map holds, for each transaction id, the label of the last
file row bearing that id: later assignments overwrite earlier ones. -/
lemma buildMap_snoc (pairs : List (Option String × Int)) (p : Option String × Int)
    (t : Option String) :
    buildMap (pairs ++ [p]) t = if t = p.1 then some p.2 else buildMap pairs t := by
  simp [buildMap, List.foldl_append]

/-- Looking up the prediction map yields the value of the last pair whose key
matches, if any. -/
lemma buildMap_lookup (pairs : List (Option String × Int)) (t : Option String) :
    buildMap pairs t =
      ((pairs.filter (fun q => q.1 == t)).getLast?).map (fun q => q.2) := by
  induction pairs using List.reverseRecOn with
  | nil => rfl
  | append_singleton ps p ih =>
    rw [buildMap_snoc]
    by_cases h : t = p.1
    · simp [List.filter_append, h]
    · have hne : (p.1 == t) = false := by
        simp only [beq_eq_false_iff_ne]
        exact fun hh => h hh.symm
      simp [List.filter_append, hne, ih, h]

/-- With a transaction-id column present, the per-row loop of a fully valid
submission collects nothing into the positional list and emits exactly one
(id, label) pair per row, in file order — duplicates raise no error. -/
lemma collectPreds_tid_ok (fk tk : String) :
    ∀ (rows : List Row) (idx : Nat),
      (∀ r ∈ rows, validCell (getCol r fk) = true) →
      collectPreds fk (some tk) idx rows =
        .ok ([], rows.map (fun r => (getCol r tk, labelOf fk r))) := by
  intro rows
  induction rows with
  | nil => intro idx _; rfl
  | cons r rest ih =>
    intro idx h
    have hr := h r (List.mem_cons_self _ _)
    cases hv : jsParseIntOpt (getCol r fk) with
    | none => simp [validCell, hv] at hr
    | some v =>
      have hv01 : v = 0 ∨ v = 1 := by
        simp [validCell, hv] at hr
        tauto
      have hrec := ih (idx + 1) (fun x hx => h x (List.mem_cons_of_mem _ hx))
      simp [collectPreds, hv, hv01, hrec, labelOf]

/-- Claim C10: duplicate transaction ids raise no error; the map is built with
later rows silently overwriting earlier ones, so an aligned prediction for an
id equals the label of the last row in file order bearing it; concretely, a
two-row submission repeating id t1 with labels 0 then 1 is scored using
label 1. -/
theorem claim_C10_duplicate_ids_last_wins :
    (∀ (pairs : List (Option String × Int)) (t : Option String),
      buildMap pairs t =
        ((pairs.filter (fun q => q.1 == t)).getLast?).map (fun q => q.2)) ∧
    (∀ (fk tk : String) (rows : List Row) (idx : Nat),
      (∀ r ∈ rows, validCell (getCol r fk) = true) →
      collectPreds fk (some tk) idx rows =
        .ok ([], rows.map (fun r => (getCol r tk, labelOf fk r)))) ∧
    processUpload [[("TransactionID", "t1"), ("isFraud", "1")]]
      [[("TransactionID", "t1"), ("isFraud", "0")],
       [("TransactionID", "t1"), ("isFraud", "1")]] = .ok (1, some 1) := by
  refine ⟨buildMap_lookup, fun fk tk rows idx h => collectPreds_tid_ok fk tk rows idx h, ?_⟩
  have h1 : F1Score [some 1] [some 1] = 1 := by
    norm_num [F1Score, f1Counts, f1CountsAux, Option.join]
  have h2 : Accuracy [some 1] [some 1] = some 1 := by
    norm_num [Accuracy, countMatches, jeq, Option.join]
  rw [← h2, ← h1]
  exact rfl

/-- Concrete instantiation of claim C10's duplicate-id collection clause. -/
theorem claim_C10_witness :
    collectPreds "isFraud" (some "TransactionID") 0
      [[("TransactionID", "t1"), ("isFraud", "0")],
       [("TransactionID", "t1"), ("isFraud", "1")]] =
      .ok ([], [(some "t1", 0), (some "t1", 1)]) :=
  (claim_C10_duplicate_ids_last_wins.2.1 "isFraud" "TransactionID"
    [[("TransactionID", "t1"), ("isFraud", "0")],
     [("TransactionID", "t1"), ("isFraud", "1")]] 0 (by decide)).trans rfl

/-- The `$max` fold dominates its seed. -/
lemma foldl_max_le (es : List ScoreRow) : ∀ (b : ℚ),
    b ≤ es.foldl (fun m x => max m x.f1) b := by
  induction es with
  | nil => intro b; exact le_refl b
  | cons e t ih =>
    intro b
    simp only [List.foldl_cons]
    exact le_trans (le_max_left b e.f1) (ih (max b e.f1))

/-- The `$max` fold dominates every listed f1. -/
lemma foldl_max_mem_le (es : List ScoreRow) : ∀ (b : ℚ) (s : ScoreRow), s ∈ es →
    s.f1 ≤ es.foldl (fun m x => max m x.f1) b := by
  induction es with
  | nil => simp
  | cons e t ih =>
    intro b s hs
    simp only [List.foldl_cons]
    rcases List.mem_cons.mp hs with rfl | hs
    · exact le_trans (le_max_right b s.f1) (foldl_max_le t (max b s.f1))
    · exact ih (max b e.f1) s hs

/-- The `$max` fold returns its seed or some listed f1. -/
lemma foldl_max_attn (es : List ScoreRow) : ∀ (b : ℚ),
    es.foldl (fun m x => max m x.f1) b = b ∨
      ∃ s ∈ es, es.foldl (fun m x => max m x.f1) b = s.f1 := by
  induction es with
  | nil => intro b; exact Or.inl rfl
  | cons e t ih =>
    intro b
    simp only [List.foldl_cons]
    rcases ih (max b e.f1) with h | ⟨s, hs, h⟩
    · by_cases hbe : b ≤ e.f1
      · exact Or.inr ⟨e, List.mem_cons_self _ _, by rw [h]; exact max_eq_right hbe⟩
      · exact Or.inl (by rw [h]; exact max_eq_left (le_of_not_le hbe))
    · exact Or.inr ⟨s, List.mem_cons_of_mem _ hs, h⟩

/-- The group maximum `maxF1` bounds every entry of its group. -/
lemma maxF1_le (l : List ScoreRow) (m : ℚ) (hm : maxF1 l = some m) :
    ∀ s ∈ l, s.f1 ≤ m := by
  cases l with
  | nil => simp [maxF1] at hm
  | cons e t =>
    simp only [maxF1, Option.some.injEq] at hm
    intro s hs
    rcases List.mem_cons.mp hs with rfl | hs
    · rw [← hm]; exact foldl_max_le t s.f1
    · rw [← hm]; exact foldl_max_mem_le t e.f1 s hs

/-- The group maximum `maxF1` is attained by some entry of its group. -/
lemma maxF1_attained (l : List ScoreRow) (m : ℚ) (hm : maxF1 l = some m) :
    ∃ s ∈ l, s.f1 = m := by
  cases l with
  | nil => simp [maxF1] at hm
  | cons e t =>
    simp only [maxF1, Option.some.injEq] at hm
    rcases foldl_max_attn t e.f1 with h | ⟨s, hs, h⟩
    · exact ⟨e, List.mem_cons_self _ _, by rw [← hm, h]⟩
    · exact ⟨s, List.mem_cons_of_mem _ hs, by rw [← hm, h]⟩

/-- The head of a timestamp-sorted list has the least timestamp. -/
lemma head_ts_le {l : List ScoreRow} {s : ScoreRow} (hs : List.Sorted tsLE l)
    (hh : l.head? = some s) : ∀ x ∈ l, s.timestamp ≤ x.timestamp := by
  cases l with
  | nil => simp at hh
  | cons a rest =>
    simp only [List.head?_cons, Option.some.injEq] at hh
    subst hh
    intro x hx
    rcases List.mem_cons.mp hx with rfl | hx
    · exact le_refl _
    · exact (List.sorted_cons.mp hs).1 x hx

/-- Unfolding `bestFor` when the group maximum exists. -/
lemma bestFor_eq_of_max (scores : List ScoreRow) (u : String) (m : ℚ)
    (hm : maxF1 (entriesFor scores u) = some m) :
    bestFor scores u =
      (List.insertionSort tsLE
        ((entriesFor scores u).filter (fun s => decide (s.f1 = m)))).head? := by
  unfold bestFor
  rw [hm]

/-- What the aggregation's per-owner best entry satisfies: it is one of the
owner's rows, carries the owner's maximal f1, and among the rows attaining
that f1 it has the earliest timestamp. -/
lemma bestFor_spec (scores : List ScoreRow) (u : String) (s : ScoreRow)
    (h : bestFor scores u = some s) :
    s ∈ scores ∧ s.userId = u ∧
    (∀ t ∈ scores, t.userId = u → t.f1 ≤ s.f1) ∧
    (∀ t ∈ scores, t.userId = u → t.f1 = s.f1 → s.timestamp ≤ t.timestamp) := by
  cases hm : maxF1 (entriesFor scores u) with
  | none =>
    rw [bestFor, hm] at h
    simp at h
  | some m =>
    rw [bestFor_eq_of_max scores u m hm] at h
    have hperm := List.perm_insertionSort tsLE
      ((entriesFor scores u).filter (fun x => decide (x.f1 = m)))
    have hsorted := List.sorted_insertionSort tsLE
      ((entriesFor scores u).filter (fun x => decide (x.f1 = m)))
    have hmem_sorted : s ∈ List.insertionSort tsLE
        ((entriesFor scores u).filter (fun x => decide (x.f1 = m))) := by
      cases hl : List.insertionSort tsLE
          ((entriesFor scores u).filter (fun x => decide (x.f1 = m))) with
      | nil => rw [hl] at h; simp at h
      | cons a rest =>
        rw [hl] at h
        simp only [List.head?_cons, Option.some.injEq] at h
        rw [← h]
        exact List.mem_cons_self _ _
    have hmem_ties := hperm.subset hmem_sorted
    have hfil := List.mem_filter.mp hmem_ties
    have hsf1 : s.f1 = m := by simpa using hfil.2
    have hent := List.mem_filter.mp hfil.1
    have hsu : s.userId = u := by simpa using hent.2
    refine ⟨hent.1, hsu, ?_, ?_⟩
    · intro t ht hu
      have htm : t ∈ entriesFor scores u := List.mem_filter.mpr ⟨ht, by simp [hu]⟩
      rw [hsf1]
      exact maxF1_le _ m hm t htm
    · intro t ht hu hf1
      have htm : t ∈ entriesFor scores u := List.mem_filter.mpr ⟨ht, by simp [hu]⟩
      have htie : t ∈ (entriesFor scores u).filter (fun x => decide (x.f1 = m)) :=
        List.mem_filter.mpr ⟨htm, by simp [hf1, hsf1]⟩
      exact head_ts_le hsorted h t (hperm.symm.subset htie)

/-- Every `$group` key comes from some Score row. -/
lemma mem_owners_exists (scores : List ScoreRow) :
    ∀ u ∈ owners scores, ∃ s ∈ scores, s.userId = u := by
  suffices h : ∀ (l : List ScoreRow) (acc : List String) (u : String),
      u ∈ l.foldl (fun a s => addOwner a s.userId) acc →
      u ∈ acc ∨ ∃ s ∈ l, s.userId = u by
    intro u hu
    rcases h scores [] u hu with h0 | h0
    · simp at h0
    · exact h0
  intro l
  induction l with
  | nil => intro acc u hu; exact Or.inl hu
  | cons e t ih =>
    intro acc u hu
    simp only [List.foldl_cons] at hu
    rcases ih (addOwner acc e.userId) u hu with h0 | ⟨s, hs, hsu⟩
    · unfold addOwner at h0
      by_cases hin : e.userId ∈ acc
      · rw [if_pos hin] at h0
        exact Or.inl h0
      · rw [if_neg hin] at h0
        rcases List.mem_append.mp h0 with h1 | h1
        · exact Or.inl h1
        · simp only [List.mem_singleton] at h1
          exact Or.inr ⟨e, List.mem_cons_self _ _, h1.symm⟩
    · exact Or.inr ⟨s, List.mem_cons_of_mem _ hs, hsu⟩

/-- An owner with at least one Score row has a best entry. -/
lemma bestFor_isSome (scores : List ScoreRow) (u : String)
    (hex : ∃ s ∈ scores, s.userId = u) : ∃ b, bestFor scores u = some b := by
  obtain ⟨s, hs, hu⟩ := hex
  have hse : s ∈ entriesFor scores u := List.mem_filter.mpr ⟨hs, by simp [hu]⟩
  cases hm : maxF1 (entriesFor scores u) with
  | none =>
    exfalso
    cases hE : entriesFor scores u with
    | nil => rw [hE] at hse; simp at hse
    | cons e t => rw [hE] at hm; simp [maxF1] at hm
  | some m =>
    obtain ⟨w, hw, hwf⟩ := maxF1_attained _ m hm
    have hwt : w ∈ (entriesFor scores u).filter (fun x => decide (x.f1 = m)) :=
      List.mem_filter.mpr ⟨hw, by simp [hwf]⟩
    have hperm := List.perm_insertionSort tsLE
      ((entriesFor scores u).filter (fun x => decide (x.f1 = m)))
    rw [bestFor_eq_of_max scores u m hm]
    cases hl : List.insertionSort tsLE
        ((entriesFor scores u).filter (fun x => decide (x.f1 = m))) with
    | nil =>
      exfalso
      rw [hl] at hperm
      have hmem0 := hperm.symm.subset hwt
      simp at hmem0
    | cons a rest => exact ⟨a, rfl⟩

/-- Mapping `filterMap` by an everywhere-defined function preserves length. -/
lemma length_filterMap_all_some {α β : Type} (f : α → Option β) :
    ∀ (l : List α), (∀ a ∈ l, ∃ b, f a = some b) →
      (l.filterMap f).length = l.length := by
  intro l
  induction l with
  | nil => simp
  | cons a t ih =>
    intro h
    obtain ⟨b, hb⟩ := h a (List.mem_cons_self _ _)
    simp [List.filterMap_cons, hb, ih (fun x hx => h x (List.mem_cons_of_mem _ hx))]

/-- Claim C7: every leaderboard entry is an owner's row with that owner's
maximal f1 and, among the rows attaining it, the earliest timestamp; the
list is sorted by f1 descending then earliest timestamp ascending; it is
truncated to the requested limit (one entry per owner); and on the spec's
example — (userA,0.9,t=10), (userA,0.95,t=5), (userB,0.95,t=8) with the
default limit 5 — userA(0.95,t=5) precedes userB(0.95,t=8). -/
theorem claim_C7_leaderboard :
    (∀ (scores : List ScoreRow) (limit : Nat), ∀ e ∈ leaderboard scores limit,
      ∃ s, s ∈ scores ∧ s.userId = e.user_id ∧ s.f1 = e.f1_score ∧
        s.accuracy = e.accuracy ∧ s.timestamp = e.last_submission ∧
        (∀ t ∈ scores, t.userId = e.user_id → t.f1 ≤ s.f1) ∧
        (∀ t ∈ scores, t.userId = e.user_id → t.f1 = s.f1 →
          s.timestamp ≤ t.timestamp)) ∧
    (∀ (scores : List ScoreRow) (limit : Nat),
      List.Sorted lbRel (leaderboard scores limit)) ∧
    (∀ (scores : List ScoreRow) (limit : Nat),
      (leaderboard scores limit).length = min limit (owners scores).length) ∧
    leaderboard [⟨"userA", 9/10, some 1, 10⟩, ⟨"userA", 19/20, some 1, 5⟩,
        ⟨"userB", 19/20, some 1, 8⟩] 5 =
      [⟨"userA", 19/20, some 1, 5⟩, ⟨"userB", 19/20, some 1, 8⟩] := by
  refine ⟨?_, ?_, ?_, ?_⟩
  · intro scores limit e he
    have hsort : e ∈ List.insertionSort lbRel ((owners scores).filterMap (fun u =>
        (bestFor scores u).map (fun s => ⟨u, s.f1, s.accuracy, s.timestamp⟩))) :=
      List.mem_of_mem_take he
    have hrows : e ∈ (owners scores).filterMap (fun u =>
        (bestFor scores u).map (fun s => ⟨u, s.f1, s.accuracy, s.timestamp⟩)) :=
      (List.perm_insertionSort lbRel _).subset hsort
    obtain ⟨u, hu, hmap⟩ := List.mem_filterMap.mp hrows
    obtain ⟨s, hbest, hes⟩ := Option.map_eq_some'.mp hmap
    obtain ⟨hss, hsu, hmax, hts⟩ := bestFor_spec scores u s hbest
    refine ⟨s, hss, ?_, ?_, ?_, ?_, ?_, ?_⟩
    · rw [← hes]; exact hsu
    · rw [← hes]
    · rw [← hes]
    · rw [← hes]
    · intro t ht htu
      rw [← hes] at htu
      exact hmax t ht htu
    · intro t ht htu
      rw [← hes] at htu
      exact hts t ht htu
  · intro scores limit
    exact List.Pairwise.sublist (List.take_sublist limit _)
      (List.sorted_insertionSort lbRel _)
  · intro scores limit
    unfold leaderboard
    rw [List.length_take, (List.perm_insertionSort lbRel _).length_eq]
    congr 1
    exact length_filterMap_all_some _ (owners scores) (fun u hu => by
      obtain ⟨b, hb⟩ := bestFor_isSome scores u (mem_owners_exists scores u hu)
      exact ⟨⟨u, b.f1, b.accuracy, b.timestamp⟩, by rw [hb]; rfl⟩)
  · have hBA : ¬(("userB" : String) = "userA") := by decide
    have hAB : ¬(("userA" : String) = "userB") := by decide
    norm_num [leaderboard, owners, addOwner, bestFor, entriesFor, maxF1,
      List.insertionSort, List.orderedInsert, lbRel, tsLE, max_def, beq_iff_eq,
      List.filter_cons, List.filterMap_cons, hBA, hAB]

/-- Concrete instantiation of claim C7's best-entry clause on the spec's
example: the userA leaderboard entry comes from userA's 0.95-at-t=5 row. -/
theorem claim_C7_witness :
    ∃ s, s ∈ [(⟨"userA", 9/10, some 1, 10⟩ : ScoreRow),
        ⟨"userA", 19/20, some 1, 5⟩, ⟨"userB", 19/20, some 1, 8⟩] ∧
      s.userId = "userA" ∧ s.f1 = 19/20 ∧ s.accuracy = some 1 ∧ s.timestamp = 5 ∧
      (∀ t ∈ [(⟨"userA", 9/10, some 1, 10⟩ : ScoreRow),
          ⟨"userA", 19/20, some 1, 5⟩, ⟨"userB", 19/20, some 1, 8⟩],
        t.userId = "userA" → t.f1 ≤ s.f1) ∧
      (∀ t ∈ [(⟨"userA", 9/10, some 1, 10⟩ : ScoreRow),
          ⟨"userA", 19/20, some 1, 5⟩, ⟨"userB", 19/20, some 1, 8⟩],
        t.userId = "userA" → t.f1 = s.f1 → s.timestamp ≤ t.timestamp) := by
  have hmem : (⟨"userA", 19/20, some 1, 5⟩ : LBEntry) ∈
      leaderboard [⟨"userA", 9/10, some 1, 10⟩, ⟨"userA", 19/20, some 1, 5⟩,
        ⟨"userB", 19/20, some 1, 8⟩] 5 := by
    rw [claim_C7_leaderboard.2.2.2]
    exact List.mem_cons_self _ _
  have h := claim_C7_leaderboard.1 _ 5 _ hmem
  simpa using h
